import Mathlib

/-!
Shallow embedding of the simnibs core under verification:
`simnibs/simulation/tms_coil/tms_coil_deformation.py` and
`simnibs/segmentation/brain_surface.py`.

Conventions used throughout this development:
* Machine floating point numbers are modelled by the rationals.  All the
  arithmetic that the claims talk about (divisions, comparisons, averages)
  is exact in the source up to rounding, and no claim hinges on a rounding
  boundary other than ones that are noted locally.
* Numpy arrays are modelled by lists; indexed reads use `List.getD` with an
  explicit default, which only matters outside the bounds tracked by the
  validity hypotheses of the theorems.
* Calls into the external mesh and numerics kernels (node normals,
  segment-triangle intersection, Taubin smoothing, square root) are
  modelled as oracle parameters: the spec explicitly places those kernels
  outside the core under specification.
* Fallible operations (the property setter, `to_tcd`/`from_tcd`,
  assertion-guarded entry points) land in `Except String`.
-/

/-! ## Coil deformations (`tms_coil_deformation.py`) -/

/-- State of a `TmsCoilDeformation` object: the fields written by
`TmsCoilDeformation.__init__` (`initial`, `_current`, `range`). -/
structure TmsCoilDeformationData where
  initial : ℚ
  current : ℚ
  range_lo : ℚ
  range_hi : ℚ
deriving DecidableEq, Repr

/-- The `current` property setter of `TmsCoilDeformation` (lines 41-48 of
`tms_coil_deformation.py`).  Translated literally from the source: the
condition tests `self.current` (the value stored before the assignment),
not the incoming `value`. -/
def set_current (d : TmsCoilDeformationData) (value : ℚ) :
    Except String TmsCoilDeformationData :=
  if d.current < d.range_lo ∨ d.range_hi < d.current then
    Except.error "Value must be within the range"
  else
    Except.ok { d with current := value }

/-- The closed set of concrete deformation variants:
`TmsCoilTranslation` (axis-aligned translation) and `TmsCoilRotation`
(rotation about the axis through two points). -/
inductive TmsCoilDeformation where
  | translation (initial current range_lo range_hi : ℚ) (axis : ℤ)
  | rotation (initial current range_lo range_hi : ℚ) (point_1 point_2 : List ℚ)
deriving DecidableEq, Repr

/-- The tcd dictionary produced by `to_tcd` and consumed by `from_tcd`:
`initial`, `range`, `type`, and (for rotations) `point1`/`point2`.
Missing keys are `none`. -/
structure TcdDict where
  initial : ℚ
  range_lo : ℚ
  range_hi : ℚ
  type : String
  point1 : Option (List ℚ)
  point2 : Option (List ℚ)
deriving DecidableEq, Repr

/-- `TmsCoilTranslation.to_tcd` / `TmsCoilRotation.to_tcd` (lines 155-165 and
233-238 of `tms_coil_deformation.py`): serializes `initial` and `range`
(a note: the `current` value is not serialized), maps the translation axis to
the type tag `x`/`y`/`z` and raises for an axis outside 0-2, and stores the
two rotation points under `point1`/`point2` with type tag `rot2p`. -/
def to_tcd : TmsCoilDeformation → Except String TcdDict
  | .translation initial _current lo hi axis =>
    if axis = 0 then Except.ok ⟨initial, lo, hi, "x", none, none⟩
    else if axis = 1 then Except.ok ⟨initial, lo, hi, "y", none, none⟩
    else if axis = 2 then Except.ok ⟨initial, lo, hi, "z", none, none⟩
    else Except.error ("Translation axis (" ++ toString axis ++ ") out of range (0-2)")
  | .rotation initial _current lo hi p1 p2 =>
    Except.ok ⟨initial, lo, hi, "rot2p", some p1, some p2⟩

/-- `TmsCoilDeformation.from_tcd` (lines 84-99 of
`tms_coil_deformation.py`): rebuilds the concrete variant from the type tag;
the deserialized object has `current` equal to `initial` because
`__init__` sets `_current = initial`. -/
def from_tcd (t : TcdDict) : Except String TmsCoilDeformation :=
  if t.type = "x" then
    Except.ok (.translation t.initial t.initial t.range_lo t.range_hi 0)
  else if t.type = "y" then
    Except.ok (.translation t.initial t.initial t.range_lo t.range_hi 1)
  else if t.type = "z" then
    Except.ok (.translation t.initial t.initial t.range_lo t.range_hi 2)
  else if t.type = "rot2p" then
    match t.point1, t.point2 with
    | some p1, some p2 =>
      Except.ok (.rotation t.initial t.initial t.range_lo t.range_hi p1 p2)
    | _, _ => Except.error "KeyError: point1 or point2 missing"
  else
    Except.error ("Invalid deformation type: " ++ t.type)

/-- C1.  The setter of the `current` property compares the stored value
`self.current` against the range instead of the incoming `value`.
Concretely: for a deformation with range (0, 1) and current value 0,
assigning 5 does not raise and stores 5 (the claim says it must raise a
ValueError and leave `current` unchanged); and once `current` holds the
out-of-range 5, even the in-range assignment 1/2 raises. -/
theorem C1_setter_checks_old_value :
    set_current ⟨0, 0, 0, 1⟩ 5 = Except.ok ⟨0, 5, 0, 1⟩ ∧
    set_current ⟨0, 5, 0, 1⟩ (1/2) = Except.error "Value must be within the range" := by
  constructor
  · rfl
  · rfl

/-- C10.  Serialization round trip: for a translation with axis 0, 1 or 2 and
for every rotation, `from_tcd (to_tcd d)` rebuilds the same variant with the
same initial value, range, axis (translation) and points (rotation); the
`current` value is not serialized, so the rebuilt deformation carries
`current = initial`; and `to_tcd` fails on a translation axis outside 0-2. -/
theorem C10_tcd_round_trip (init cur lo hi : ℚ) (axis : ℤ) (p1 p2 : List ℚ) :
    ((axis = 0 ∨ axis = 1 ∨ axis = 2) →
      (to_tcd (.translation init cur lo hi axis)).bind from_tcd =
        Except.ok (.translation init init lo hi axis)) ∧
    ((to_tcd (.rotation init cur lo hi p1 p2)).bind from_tcd =
        Except.ok (.rotation init init lo hi p1 p2)) ∧
    (¬(axis = 0 ∨ axis = 1 ∨ axis = 2) →
      ∃ msg, to_tcd (.translation init cur lo hi axis) = Except.error msg) := by
  refine ⟨?_, ?_, ?_⟩
  · rintro (rfl | rfl | rfl) <;> rfl
  · rfl
  · intro h
    push_neg at h
    obtain ⟨h0, h1, h2⟩ := h
    refine ⟨"Translation axis (" ++ toString axis ++ ") out of range (0-2)", ?_⟩
    simp [to_tcd, h0, h1, h2]

/-- Witness for C10 at concrete inputs: axis 1 round-trips, a rotation
round-trips, and axis 5 is rejected by `to_tcd`. -/
theorem C10_tcd_round_trip_witness :
    ((to_tcd (.translation 1 2 0 5 1)).bind from_tcd =
      Except.ok (.translation 1 1 0 5 1)) ∧
    ((to_tcd (.rotation 3 4 (-1) 1 [0,0,0] [0,0,1])).bind from_tcd =
      Except.ok (.rotation 3 3 (-1) 1 [0,0,0] [0,0,1])) ∧
    (∃ msg, to_tcd (.translation 1 2 0 5 5) = Except.error msg) := by
  refine ⟨?_, ?_, ?_⟩
  · exact (C10_tcd_round_trip 1 2 0 5 1 [] []).1 (Or.inr (Or.inl rfl))
  · exact (C10_tcd_round_trip 3 4 (-1) 1 0 [0,0,0] [0,0,1]).2.1
  · exact (C10_tcd_round_trip 1 2 0 5 5 [] []).2.2 (by decide)

/-! ## The movement mask of `expandCS` (`brain_surface.py`, lines 90-177) -/

/-- The boolean-mask assignment `move[move] = keep_results` at line 163 of
`brain_surface.py`: the k-th currently movable vertex receives the k-th entry
of the right hand side (`(n_intersections == 0) & (n_intersections2 < 2)`,
modelled by the function `keep` over the compacted movable index);
vertices that are already non-movable stay untouched (false). -/
def applyMoveUpdate : List Bool → (ℕ → Bool) → List Bool
  | [], _ => []
  | true :: rest, keep => keep 0 :: applyMoveUpdate rest (fun k => keep (k + 1))
  | false :: rest, keep => false :: applyMoveUpdate rest keep

/-- The exact count `np.sum(~move[faces[v2f[j]]])` of the despiking step
(line 173 of `brain_surface.py`), before storage: the total number of
non-movable vertex occurrences over all faces incident to vertex `j` (a
vertex is counted once per incident face that contains it). -/
def nonMoveOccurrences (faces v2f : List (List ℕ)) (move : List Bool)
    (j : ℕ) : ℕ :=
  ((v2f.getD j []).map
    (fun t => ((faces.getD t []).filter (fun n => !(move.getD n false))).length)).sum

/-- The exact count `len(v2f[j])` of the despiking step (line 174 of
`brain_surface.py`), before storage: the number of faces incident to
vertex `j`. -/
def incidentFaceCount (v2f : List (List ℕ)) (j : ℕ) : ℕ :=
  (v2f.getD j []).length

/-- `Nnomove[j]` as stored (line 170 of `brain_surface.py`): the `Nnomove`
array has dtype uint16, so the assigned count wraps modulo 2^16. -/
def Nnomove (faces v2f : List (List ℕ)) (move : List Bool) (j : ℕ) : ℕ :=
  nonMoveOccurrences faces v2f move j % 65536

/-- `Nfaces[j]` as stored (line 171 of `brain_surface.py`): the `Nfaces`
array has dtype uint16, so the assigned count wraps modulo 2^16. -/
def Nfaces (v2f : List (List ℕ)) (j : ℕ) : ℕ :=
  incidentFaceCount v2f j % 65536

/-- The despiking update `move = ~(~move & (Nnomove > Nfaces))` at line 177
of `brain_surface.py`. -/
def despike (faces v2f : List (List ℕ)) (move : List Bool) : List Bool :=
  (List.range move.length).map
    (fun j => !((!(move.getD j false)) && decide (Nnomove faces v2f move j > Nfaces v2f j)))

/-- One full per-iteration update of the movement mask inside `expandCS`
(lines 163-177 of `brain_surface.py`): the intersection-test update followed,
when `despike_nonmove` is set, by the despiking pass. -/
def moveUpdateStep (faces v2f : List (List ℕ)) (despike_nonmove : Bool)
    (move : List Bool) (keep : ℕ → Bool) : List Bool :=
  let m1 := applyMoveUpdate move keep
  if despike_nonmove then despike faces v2f m1 else m1

theorem getD_range_map {α : Type} (f : ℕ → α) (n j : ℕ) (d : α) (hj : j < n) :
    (((List.range n).map f).getD j d) = f j := by
  rw [List.getD_eq_getElem?_getD, List.getElem?_map, List.getElem?_range hj]
  rfl

theorem applyMoveUpdate_mono :
    ∀ (move : List Bool) (keep : ℕ → Bool) (j : ℕ),
      (applyMoveUpdate move keep).getD j false = true → move.getD j false = true := by
  intro move
  induction move with
  | nil => intro keep j h; simpa [applyMoveUpdate] using h
  | cons b rest ih =>
    intro keep j h
    cases b with
    | true =>
      cases j with
      | zero => rfl
      | succ j => exact ih _ j h
    | false =>
      cases j with
      | zero => simpa [applyMoveUpdate] using h
      | succ j => exact ih _ j h

/-- C2 (amended).  The intersection-test update of the movement mask only
clears bits: with `despike_nonmove = false` the per-iteration mask update of
`expandCS` is monotone (a vertex marked movable afterwards was movable
before).  With the default `despike_nonmove = true` this monotonicity fails,
see the counterexample. -/
theorem C2_mask_monotone_without_despike (faces v2f : List (List ℕ))
    (move : List Bool) (keep : ℕ → Bool) (j : ℕ)
    (h : (moveUpdateStep faces v2f false move keep).getD j false = true) :
    move.getD j false = true := by
  exact applyMoveUpdate_mono move keep j h

/-- Witness for the amended C2: on a concrete mask and intersection outcome,
vertex 1 is still movable after the update without despiking, and it was
movable before. -/
theorem C2_mask_monotone_without_despike_witness :
    (moveUpdateStep [[0,1,2]] [[0],[0],[0]] false [true, true, true]
        (fun k => decide (k ≠ 0))).getD 1 false = true ∧
    ([true, true, true] : List Bool).getD 1 false = true := by
  constructor
  · decide
  · exact C2_mask_monotone_without_despike [[0,1,2]] [[0],[0],[0]]
      [true, true, true] (fun k => decide (k ≠ 0)) 1 (by decide)

/-- Counterexample to C2 as stated: on a single-triangle mesh with all three
vertices movable, the intersection test clears the mask bit of vertex 0, and
the despiking pass of the same iteration (the default
`despike_nonmove = true`) sets that bit back to true, because
`Nnomove = 1 = Nfaces` is not strictly greater.  So a cleared bit is re-set
at a later point of the same run. -/
theorem C2_counterexample :
    (applyMoveUpdate [true, true, true] (fun k => decide (k ≠ 0))).getD 0 false
      = false ∧
    (moveUpdateStep [[0,1,2]] [[0],[0],[0]] true [true, true, true]
      (fun k => decide (k ≠ 0))).getD 0 false = true := by
  constructor
  · decide
  · decide

/-- A fan mesh driving the uint16 wrap of the despike counts: 65535
identical faces `[0, 1, 2]`, vertex 0 incident to all of them, vertices 0
and 1 non-movable.  The exact per-face non-movable count is 2, so the exact
total is 131070, which the uint16 store wraps to 65534, below the stored
face count 65535. -/
def fanFaces : List (List ℕ) := List.replicate 65535 [0, 1, 2]

/-- The vertex-to-face entry of vertex 0 in the fan mesh: all 65535 faces
(the `verts2faces` output for these faces restricted to vertex 0). -/
def fanV2f : List (List ℕ) := [List.range 65535]

/-- The movement mask of the fan counterexample. -/
def fanMove : List Bool := [false, false, true]

/-- Counterexample to C3 as stated: in the fan mesh, vertex 0 is
non-movable and its exact count of non-movable occurrences (131070)
strictly exceeds its exact number of incident faces (65535), so the claim
says it stays non-movable; but the source stores both counts in uint16
arrays (lines 170-171), the total wraps to 65534 < 65535, and the vertex is
reinstated as movable. -/
theorem C3_counterexample :
    fanMove.getD 0 false = false ∧
    nonMoveOccurrences fanFaces fanV2f fanMove 0 >
      incidentFaceCount fanV2f 0 ∧
    (despike fanFaces fanV2f fanMove).getD 0 false = true := by
  have hv0 : fanV2f.getD 0 [] = List.range 65535 := by
    rw [fanV2f, List.getD_cons_zero]
  have hinc : incidentFaceCount fanV2f 0 = 65535 := by
    rw [incidentFaceCount, hv0, List.length_range]
  have hocc : nonMoveOccurrences fanFaces fanV2f fanMove 0 = 131070 := by
    rw [nonMoveOccurrences, hv0]
    have hmem : ∀ b ∈ (List.range 65535).map (fun t =>
        ((fanFaces.getD t []).filter (fun n => !(fanMove.getD n false))).length),
        b = 2 := by
      intro b hb
      obtain ⟨t, ht, rfl⟩ := List.mem_map.mp hb
      rw [List.mem_range] at ht
      have hf : fanFaces.getD t [] = [0, 1, 2] := by
        rw [fanFaces, List.getD_eq_getElem _ _
          (by rw [List.length_replicate]; exact ht), List.getElem_replicate]
      rw [hf]
      rfl
    have hrep := List.eq_replicate_length.mpr hmem
    rw [List.length_map, List.length_range] at hrep
    rw [hrep, List.sum_replicate, smul_eq_mul]
  refine ⟨rfl, ?_, ?_⟩
  · rw [hocc, hinc]
    norm_num
  · have hNn : Nnomove fanFaces fanV2f fanMove 0 = 65534 := by
      rw [Nnomove, hocc]
    have hNf : Nfaces fanV2f 0 = 65535 := by
      rw [Nfaces, hinc]
    have hmove : fanMove.length = 3 := rfl
    rw [despike, hmove, getD_range_map _ _ _ _ (by norm_num : (0 : ℕ) < 3),
      hNn, hNf]
    decide

/-- C3 (amended).  The despiking rule, stated with the counts as the
program stores them (uint16, hence reduced modulo 2^16; for counts below
65536 this is the rule of the claim): a vertex is (still) movable after
despiking if and only if it was movable before, or its stored count of
non-movable occurrences over incident faces does not exceed its stored
incident-face count.  Equivalently: a non-movable vertex stays non-movable
exactly when `Nnomove > Nfaces`, and is reinstated when
`Nnomove <= Nfaces`; movable vertices stay movable. -/
theorem C3_despike_rule (faces v2f : List (List ℕ)) (move : List Bool) (j : ℕ)
    (hj : j < move.length) :
    (despike faces v2f move).getD j false = true ↔
      (move.getD j false = true ∨ Nnomove faces v2f move j ≤ Nfaces v2f j) := by
  unfold despike
  rw [List.getD_eq_getElem?_getD, List.getElem?_map, List.getElem?_range hj]
  simp only [Option.map_some', Option.getD_some]
  rcases h : move.getD j false with _ | _
  · simp only [h, Bool.not_false, Bool.true_and]
    constructor
    · intro hb
      right
      by_contra hgt
      push_neg at hgt
      simp [hgt] at hb
    · rintro (hc | hc)
      · exact absurd hc (by simp)
      · have : ¬ (Nnomove faces v2f move j > Nfaces v2f j) := not_lt.mpr hc
        simp [this]
  · simp [h]

/-- Witness for C3: on a concrete two-triangle mesh, the central movable
vertex stays movable. -/
theorem C3_despike_rule_witness :
    0 < ([false, true, true] : List Bool).length ∧
    ((despike [[0,1,2]] [[0],[0],[0]] [false, true, true]).getD 0 false = true ↔
      (([false, true, true] : List Bool).getD 0 false = true ∨
        Nnomove [[0,1,2]] [[0],[0],[0]] [false, true, true] 0 ≤
          Nfaces [[0],[0],[0]] 0)) := by
  constructor
  · decide
  · exact C3_despike_rule [[0,1,2]] [[0],[0],[0]] [false, true, true] 0 (by decide)

/-! ## Vectors and small array helpers -/

/-- A 3D point or vector (one row of an N-by-3 numpy array). -/
abbrev Vec3 : Type := ℚ × ℚ × ℚ

/-- The zero vector, used as the out-of-bounds default of indexed reads. -/
def v3zero : Vec3 := (0, 0, 0)

/-- Componentwise sum. -/
def add3 (a b : Vec3) : Vec3 := (a.1 + b.1, a.2.1 + b.2.1, a.2.2 + b.2.2)

/-- Componentwise difference. -/
def sub3 (a b : Vec3) : Vec3 := (a.1 - b.1, a.2.1 - b.2.1, a.2.2 - b.2.2)

/-- Scalar multiple. -/
def smul3 (c : ℚ) (a : Vec3) : Vec3 := (c * a.1, c * a.2.1, c * a.2.2)

/-- Euclidean dot product (`np.sum(a * b, axis=1)` per row). -/
def dot3 (a b : Vec3) : ℚ := a.1 * b.1 + a.2.1 * b.2.1 + a.2.2 * b.2.2

/-- Cross product (`np.cross` per row). -/
def cross3 (a b : Vec3) : Vec3 :=
  (a.2.1 * b.2.2 - a.2.2 * b.2.1,
   a.2.2 * b.1 - a.1 * b.2.2,
   a.1 * b.2.1 - a.2.1 * b.1)


theorem getD_map_of_lt {α β : Type} (f : α → β) (l : List α) (j : ℕ)
    (d : α) (e : β) (hj : j < l.length) :
    (l.map f).getD j e = f (l.getD j d) := by
  rw [List.getD_eq_getElem?_getD, List.getElem?_map, List.getElem?_eq_getElem hj,
    Option.map_some', Option.getD_some, List.getD_eq_getElem?_getD,
    List.getElem?_eq_getElem hj, Option.getD_some]

/-! ## The per-iteration displacement of `expandCS`
(`brain_surface.py`, lines 111-118) -/

/-- Lines 111-117 of `brain_surface.py`: the raw per-vertex displacement of
iteration `i`, before masking.  On iteration 0 it is
`mm2move_total / float(nsteps)`; on later iterations it is
`(mm2move_total - dist) / float(nsteps - i)` where
`dist = np.sum((vertices - vertices_org) * node_normals, axis=1)`. -/
def mm2moveBase (i : ℕ) (nsteps : ℤ) (mm2move_total : List ℚ)
    (vertices vertices_org node_normals : List Vec3) : List ℚ :=
  if i = 0 then
    mm2move_total.map (fun t => t / (nsteps : ℚ))
  else
    (List.range mm2move_total.length).map (fun j =>
      (mm2move_total.getD j 0 -
        dot3 (sub3 (vertices.getD j v3zero) (vertices_org.getD j v3zero))
          (node_normals.getD j v3zero)) / ((nsteps : ℚ) - (i : ℚ)))

/-- Line 118 of `brain_surface.py`, `mm2move[~move] = 0`: zero the entries
whose movement-mask bit is cleared. -/
def zeroNonMove (move : List Bool) (xs : List ℚ) : List ℚ :=
  (List.range xs.length).map
    (fun j => if move.getD j false then xs.getD j 0 else 0)

/-- The displacement update of one `expandCS` iteration (lines 111-118 of
`brain_surface.py`): the raw displacement followed by masking. -/
def computeMm2move (i : ℕ) (nsteps : ℤ) (mm2move_total : List ℚ)
    (vertices vertices_org node_normals : List Vec3) (move : List Bool) :
    List ℚ :=
  zeroNonMove move
    (mm2moveBase i nsteps mm2move_total vertices vertices_org node_normals)

theorem length_mm2moveBase (i : ℕ) (nsteps : ℤ) (mm2move_total : List ℚ)
    (vertices vertices_org node_normals : List Vec3) :
    (mm2moveBase i nsteps mm2move_total vertices vertices_org
      node_normals).length = mm2move_total.length := by
  unfold mm2moveBase
  by_cases h : i = 0 <;> simp [h]

/-- C4.  Closed form of the per-vertex displacement at iteration `i` of
`expandCS`: `mm2move_total/nsteps` on the first iteration,
`(mm2move_total - dist)/(nsteps - i)` afterwards with `dist` the dot product
of the accumulated offset `vertices - vertices_org` against the current
sign-adjusted vertex normals, and `0` for every vertex whose movement-mask
bit is false. -/
theorem C4_mm2move_formula (i : ℕ) (nsteps : ℤ) (mm2move_total : List ℚ)
    (vertices vertices_org node_normals : List Vec3) (move : List Bool)
    (j : ℕ) (hj : j < mm2move_total.length) (hi : (i : ℤ) < nsteps) :
    (computeMm2move i nsteps mm2move_total vertices vertices_org node_normals
        move).getD j 0 =
      if move.getD j false = false then 0
      else if i = 0 then mm2move_total.getD j 0 / (nsteps : ℚ)
      else
        (mm2move_total.getD j 0 -
          dot3 (sub3 (vertices.getD j v3zero) (vertices_org.getD j v3zero))
            (node_normals.getD j v3zero)) / ((nsteps : ℚ) - (i : ℚ)) := by
  have hjb : j < (mm2moveBase i nsteps mm2move_total vertices vertices_org
      node_normals).length := by
    rw [length_mm2moveBase]; exact hj
  unfold computeMm2move zeroNonMove
  rw [getD_range_map _ _ _ _ hjb]
  rcases hm : move.getD j false with _ | _
  · simp
  · rw [if_pos rfl, if_neg (by simp : ¬(true = false))]
    by_cases h0 : i = 0
    · subst h0
      unfold mm2moveBase
      rw [if_pos rfl, if_pos rfl, getD_map_of_lt _ _ _ 0 _ hj]
    · unfold mm2moveBase
      rw [if_neg h0, if_neg h0, getD_range_map _ _ _ _ hj]

/-- Witness for C4 on a concrete one-vertex state at iteration 1 of 3. -/
theorem C4_mm2move_formula_witness :
    (computeMm2move 1 3 [6] [(1, 0, 0)] [(0, 0, 0)] [(1, 0, 0)] [true]).getD 0 0
      = (6 - 1) / (3 - 1 : ℚ) := by
  have h := C4_mm2move_formula 1 3 [6] [(1, 0, 0)] [(0, 0, 0)] [(1, 0, 0)]
    [true] 0 (by decide) (by decide)
  rw [h]
  norm_num [dot3, sub3, v3zero]

/-! ## Binary-mode detection of `cat_vol_pbt_AT`
(`brain_surface.py`, lines 692-695) -/

/-- Whether one voxel value equals its own rounding
(one entry of `np.round(Ymf) == Ymf`; numpy rounds half to even and Mathlib
rounds half up, but a half-integer differs from both roundings, so the
equality test agrees). -/
def isRoundEq (q : ℚ) : Bool := decide ((round q : ℚ) = q)

/-- `np.sum(np.round(Ymf) == Ymf)`: how many voxel values are
integer-valued. -/
def integerCount (Ymf : List ℚ) : ℕ := Ymf.countP isRoundEq

/-- The binary-mode test of `cat_vol_pbt_AT` (line 692 of
`brain_surface.py`): binary mode is selected when the fraction of
integer-valued voxels is strictly greater than 0.9. -/
def binaryMode (Ymf : List ℚ) : Bool :=
  decide ((integerCount Ymf : ℚ) / (Ymf.length : ℚ) > 0.9)

/-- A ten-voxel volume with exactly nine integer-valued entries. -/
def YmfNinetyPct : List ℚ := [1, 1, 1, 1, 2, 2, 2, 3, 3, 3/2]

/-- Counterexample to C5 as stated: an input in which exactly 90 percent of
the voxels are integer-valued does not select binary mode, because the
source compares with a strict `> 0.9`. -/
theorem C5_counterexample :
    binaryMode YmfNinetyPct = false ∧
    (integerCount YmfNinetyPct : ℚ) / (YmfNinetyPct.length : ℚ) = 9 / 10 := by
  have h32 : isRoundEq (3/2 : ℚ) = false := by
    have hr : round (3/2 : ℚ) = 2 := by
      rw [round_eq]
      norm_num
    simp only [isRoundEq, hr]
    norm_num
  have h1 : isRoundEq (1 : ℚ) = true := by simp [isRoundEq]
  have h2 : isRoundEq (2 : ℚ) = true := by simp [isRoundEq]
  have h3 : isRoundEq (3 : ℚ) = true := by simp [isRoundEq]
  have hcount : integerCount YmfNinetyPct = 9 := by
    simp [integerCount, YmfNinetyPct, List.countP_cons, List.countP_nil,
      h1, h2, h3, h32]
  have hlen : YmfNinetyPct.length = 10 := by simp [YmfNinetyPct]
  constructor
  · unfold binaryMode
    rw [hcount, hlen, decide_eq_false_iff_not]
    norm_num
  · rw [hcount, hlen]
    norm_num

/-- C5 (amended).  `cat_vol_pbt_AT` selects binary mode if and only if the
fraction of integer-valued voxels of `Ymf` is strictly greater than 0.9,
equivalently `9 * size < 10 * count`; a fraction of exactly 0.9 selects the
non-binary path. -/
theorem C5_binary_mode_strict (Ymf : List ℚ) :
    binaryMode Ymf = true ↔ 9 * Ymf.length < 10 * integerCount Ymf := by
  unfold binaryMode
  rw [decide_eq_true_iff]
  have hc : integerCount Ymf ≤ Ymf.length := List.countP_le_length _
  constructor
  · intro h
    rcases Nat.eq_zero_or_pos Ymf.length with h0 | hpos
    · exfalso
      rw [h0] at h
      norm_num at h
    · have hn : (0 : ℚ) < (Ymf.length : ℚ) := by exact_mod_cast hpos
      rw [gt_iff_lt, lt_div_iff hn] at h
      have h9 : (9 : ℚ) * Ymf.length < 10 * integerCount Ymf := by nlinarith
      exact_mod_cast h9
  · intro h
    have hpos : 0 < Ymf.length := by
      rcases Nat.eq_zero_or_pos Ymf.length with h0 | hp
      · exfalso
        have hz : integerCount Ymf = 0 := Nat.le_zero.mp (h0 ▸ hc)
        rw [h0, hz] at h
        simp at h
      · exact hp
    have hn : (0 : ℚ) < (Ymf.length : ℚ) := by exact_mod_cast hpos
    rw [gt_iff_lt, lt_div_iff hn]
    have h9 : (9 : ℚ) * Ymf.length < 10 * integerCount Ymf := by exact_mod_cast h
    nlinarith

/-! ## Ray pairing of `_rasterize_surface`
(`brain_surface.py`, lines 535-559) -/

/-- `np.sort` of the recorded crossing depths of one grid ray. -/
def sortCrossings (cs : List ℕ) : List ℕ := List.insertionSort (· ≤ ·) cs

/-- The marking loop of `_rasterize_surface` (lines 557-559 of
`brain_surface.py`) along one ray: for `j` in `range(len(crossings) // 2)`
the voxels with depth in `[crossings[2j], crossings[2j+1])` are set inside;
the resulting value at depth `z` is true exactly when some pair covers it. -/
def markPairs (s : List ℕ) (z : ℕ) : Bool :=
  (List.range (s.length / 2)).any
    (fun j => decide (s.getD (2 * j) 0 ≤ z) && decide (z < s.getD (2 * j + 1) 0))

/-- Whether the voxel at depth `z` of one grid ray is marked inside, given
the recorded crossing depths of that ray (line 556: the crossings are sorted
before pairing). -/
def rayMask (cs : List ℕ) (z : ℕ) : Bool := markPairs (sortCrossings cs) z

theorem getD_take_of_lt {α : Type} (l : List α) (k i : ℕ) (d : α)
    (h : i < k) : (l.take k).getD i d = l.getD i d := by
  rw [List.getD_eq_getElem?_getD, List.getD_eq_getElem?_getD,
    List.getElem?_take_of_lt h]

/-- C7.  Pairing semantics of single-axis rasterization: a voxel at depth
`z` along a ray with recorded crossings `cs` is marked inside exactly when
for some `j < floor(len(cs)/2)` the sorted crossings satisfy
`sorted[2j] <= z < sorted[2j+1]`; moreover the marking only reads the first
`2 * floor(len(cs)/2)` sorted crossings, so for an odd crossing count the
last (largest) crossing is ignored (the source logs a warning for odd
counts and proceeds, it does not raise). -/
theorem C7_ray_pairing (cs : List ℕ) (z : ℕ) :
    (rayMask cs z = true ↔
      ∃ j, j < cs.length / 2 ∧
        (sortCrossings cs).getD (2 * j) 0 ≤ z ∧
        z < (sortCrossings cs).getD (2 * j + 1) 0) ∧
    rayMask cs z = markPairs ((sortCrossings cs).take (2 * (cs.length / 2))) z := by
  have hlen : (sortCrossings cs).length = cs.length :=
    List.length_insertionSort _ cs
  constructor
  · unfold rayMask markPairs
    rw [List.any_eq_true]
    constructor
    · rintro ⟨j, hj, hcover⟩
      rw [List.mem_range, hlen] at hj
      rw [Bool.and_eq_true, decide_eq_true_iff, decide_eq_true_iff] at hcover
      exact ⟨j, hj, hcover.1, hcover.2⟩
    · rintro ⟨j, hj, h1, h2⟩
      refine ⟨j, ?_, ?_⟩
      · rw [List.mem_range, hlen]
        exact hj
      · rw [Bool.and_eq_true, decide_eq_true_iff, decide_eq_true_iff]
        exact ⟨h1, h2⟩
  · unfold rayMask markPairs
    have hk : 2 * (cs.length / 2) ≤ (sortCrossings cs).length := by
      rw [hlen]
      exact Nat.mul_div_le cs.length 2
    have hlen2 : ((sortCrossings cs).take (2 * (cs.length / 2))).length
        = 2 * (cs.length / 2) := by
      rw [List.length_take]
      exact Nat.min_eq_left hk
    rw [hlen, hlen2, Nat.mul_div_cancel_left _ (by norm_num : 0 < 2)]
    rw [Bool.eq_iff_iff, List.any_eq_true, List.any_eq_true]
    constructor
    · rintro ⟨j, hj, hb⟩
      rw [List.mem_range] at hj
      refine ⟨j, List.mem_range.mpr hj, ?_⟩
      rw [getD_take_of_lt _ _ _ _ (by omega), getD_take_of_lt _ _ _ _ (by omega)]
      exact hb
    · rintro ⟨j, hj, hb⟩
      rw [List.mem_range] at hj
      rw [getD_take_of_lt _ _ _ _ (by omega), getD_take_of_lt _ _ _ _ (by omega)]
        at hb
      exact ⟨j, List.mem_range.mpr hj, hb⟩

/-! ## Mesh smoothing (`brain_surface.py`, lines 243-303) -/

/-- `verts2faces` (lines 369-408 of `brain_surface.py`, list output): for
each vertex index the faces containing it, in face-insertion order; a
vertex occurring twice inside one face is recorded once per occurrence.
Writes to an out-of-range vertex index are dropped (the source would raise
an IndexError there; no claim touches that case). -/
def verts2faces (nVerts : ℕ) (faces : List (List ℕ)) : List (List ℕ) :=
  (List.range faces.length).foldl
    (fun v2f t =>
      (faces.getD t []).foldl (fun acc n => acc.set n (acc.getD n [] ++ [t])) v2f)
    (List.replicate nVerts [])

/-- `np.average` over a flattened selection: the sum divided by the number
of entries.  For an empty selection numpy produces NaN (with a runtime
warning); this model returns 0.  The only statement evaluated on an empty
selection (the counterexample to C9) holds under either reading, because a
vertex with no incident face receives a value (NaN there, 0 here) that
differs from the constant field around it. -/
def npAverage {α : Type} [AddCommMonoid α] [Module ℚ α] (l : List α) : α :=
  (l.length : ℚ)⁻¹ • l.sum

/-- The selection `vertices[faces[v2f_map[n]]]` feeding one smoothing
update of vertex `n`: the flattened multiset of `src` values at every
vertex slot of every face incident to `n`. -/
def gatherFaceVals {α : Type} [AddCommMonoid α] (faces v2f : List (List ℕ))
    (src : List α) (n : ℕ) : List α :=
  ((v2f.getD n []).flatMap (fun t => faces.getD t [])).map (fun m => src.getD m 0)

/-- One plain smoothing pass (lines 297-298 and 300-302 of
`brain_surface.py`): every considered vertex of `dst` is overwritten with
the unweighted average of the `src` values over its incident faces; all
reads go to `src` (the result of the previous pass), all writes to `dst`. -/
def plainPass {α : Type} [AddCommMonoid α] [Module ℚ α]
    (faces v2f : List (List ℕ)) (vc : List ℕ) (src dst : List α) : List α :=
  vc.foldl (fun d n => d.set n (npAverage (gatherFaceVals faces v2f src n))) dst

/-- Sequential smoothing passes; each pass reads the previous result. -/
def smoothPasses {α : Type} [AddCommMonoid α] [Module ℚ α]
    (faces v2f : List (List ℕ)) (vc : List ℕ) : ℕ → List α → List α
  | 0, xs => xs
  | k + 1, xs => smoothPasses faces v2f vc k (plainPass faces v2f vc xs xs)

/-- The subset produced by one successful dilation round: `np.unique`
(sorted, duplicate-free) of all vertices of all faces incident to the
current subset. -/
def dilateCore (faces v2f : List (List ℕ)) (vc : List ℕ) : List ℕ :=
  (((vc.flatMap (fun n => v2f.getD n [])).flatMap
      (fun t => faces.getD t [])).insertionSort (fun a b => a ≤ b)).dedup

/-- One ring dilation of the considered subset (lines 279-283 of
`brain_surface.py`).  A round entered with an empty subset raises: the
comprehension feeds the empty list of per-vertex face lists to `list2numpy`
whose `sorted(L, key=len, reverse=True)[0]` (line 431) is an IndexError. -/
def dilateVerts (faces v2f : List (List ℕ)) (vc : List ℕ) :
    Except String (List ℕ) :=
  if vc = [] then Except.error "IndexError: list index out of range"
  else Except.ok (dilateCore faces v2f vc)

/-- `Ndilate` rounds of subset dilation, each of which may raise. -/
def dilateIter (faces v2f : List (List ℕ)) :
    ℕ → List ℕ → Except String (List ℕ)
  | 0, vc => Except.ok vc
  | k + 1, vc => (dilateVerts faces v2f vc).bind (dilateIter faces v2f k)

/-- The movement-mask restriction
`verts2consider[mask_move[verts2consider]]` (line 286 of
`brain_surface.py`): numpy integer-array indexing of the mask raises an
IndexError when any considered index lies outside the mask; otherwise the
subset keeps exactly the vertices whose mask entry is true. -/
def maskConsider (m : List Bool) (vc : List ℕ) : Except String (List ℕ) :=
  if vc.all (fun n => decide (n < m.length)) then
    Except.ok (vc.filter (fun n => m.getD n false))
  else Except.error "IndexError: index out of bounds"

/-- `smooth_vertices` of `brain_surface.py` (lines 243-303) in its
`taubin=False` branch: optional dilation of the considered subset (raising
on an empty subset), optional restriction by the movement mask (raising
when the mask does not cover a considered index), then the plain averaging
passes (the source performs one unconditional pass followed by
`Niterations - 1` further passes, hence `1 + (Niterations - 1)` passes).
The `taubin=True` branch delegates to the external volume-preserving
kernel of the mesh library and is modelled as an oracle where it is used
(inside `expandCS`). -/
def smooth_vertices {α : Type} [AddCommMonoid α] [Module ℚ α]
    (vertices : List α) (faces : List (List ℕ))
    (verts2consider : Option (List ℕ)) (v2f_map : Option (List (List ℕ)))
    (Niterations Ndilate : ℕ) (mask_move : Option (List Bool)) :
    Except String (List α) :=
  (dilateIter faces (v2f_map.getD (verts2faces vertices.length faces)) Ndilate
      (verts2consider.getD (List.range vertices.length))).bind (fun vc1 =>
    (match mask_move with
      | some m => maskConsider m vc1
      | none => Except.ok vc1).bind (fun vc2 =>
      Except.ok (smoothPasses faces
        (v2f_map.getD (verts2faces vertices.length faces)) vc2
        (1 + (Niterations - 1)) vertices)))

theorem npAverage_const {α : Type} [AddCommMonoid α] [Module ℚ α] (c : α)
    (l : List α) (hne : l ≠ []) (hc : ∀ x ∈ l, x = c) : npAverage l = c := by
  have hlen : l.length ≠ 0 := by
    intro h
    exact hne (List.length_eq_zero.mp h)
  rw [npAverage, List.sum_eq_card_nsmul l c hc,
    ← Nat.cast_smul_eq_nsmul (R := ℚ), smul_smul,
    inv_mul_cancel₀ (Nat.cast_ne_zero.mpr hlen), one_smul]

theorem gatherFaceVals_const {α : Type} [AddCommMonoid α] [Module ℚ α] (c : α)
    (faces v2f : List (List ℕ)) (src : List α)
    (hfaces : ∀ f ∈ faces, ∀ m ∈ f, m < src.length)
    (hfne : ∀ f ∈ faces, f ≠ [])
    (hv2fT : ∀ n t, t ∈ v2f.getD n [] → t < faces.length)
    (n : ℕ) (hne : v2f.getD n [] ≠ []) (hsrc : ∀ x ∈ src, x = c) :
    gatherFaceVals faces v2f src n ≠ [] ∧
      ∀ x ∈ gatherFaceVals faces v2f src n, x = c := by
  constructor
  · obtain ⟨t0, ht0⟩ := List.exists_mem_of_ne_nil _ hne
    have ht0lt := hv2fT n t0 ht0
    have hface : faces.getD t0 [] ∈ faces := by
      rw [List.getD_eq_getElem _ _ ht0lt]
      exact List.getElem_mem ht0lt
    intro hnil
    rw [gatherFaceVals, List.map_eq_nil_iff, List.flatMap_eq_nil_iff] at hnil
    exact hfne _ hface (hnil t0 ht0)
  · intro x hx
    rw [gatherFaceVals] at hx
    obtain ⟨m, hm, rfl⟩ := List.mem_map.mp hx
    obtain ⟨t, ht, hmf⟩ := List.mem_flatMap.mp hm
    have htlt := hv2fT n t ht
    have hface : faces.getD t [] ∈ faces := by
      rw [List.getD_eq_getElem _ _ htlt]
      exact List.getElem_mem htlt
    have hmlt : m < src.length := hfaces _ hface m hmf
    rw [List.getD_eq_getElem _ _ hmlt]
    exact hsrc _ (List.getElem_mem hmlt)

theorem plainPass_const {α : Type} [AddCommMonoid α] [Module ℚ α] (c : α)
    (faces v2f : List (List ℕ))
    (hfne : ∀ f ∈ faces, f ≠ [])
    (hv2fT : ∀ n t, t ∈ v2f.getD n [] → t < faces.length) :
    ∀ (vc : List ℕ) (src dst : List α),
      (∀ f ∈ faces, ∀ m ∈ f, m < src.length) →
      (∀ n ∈ vc, v2f.getD n [] ≠ []) →
      (∀ x ∈ src, x = c) → (∀ x ∈ dst, x = c) →
      (∀ x ∈ plainPass faces v2f vc src dst, x = c) ∧
        (plainPass faces v2f vc src dst).length = dst.length := by
  intro vc
  induction vc with
  | nil =>
    intro src dst _ _ _ hdst
    exact ⟨hdst, rfl⟩
  | cons n vc ih =>
    intro src dst hfaces hne hsrc hdst
    have hgather := gatherFaceVals_const c faces v2f src hfaces hfne hv2fT n
      (hne n (List.mem_cons_self n vc)) hsrc
    have havg : npAverage (gatherFaceVals faces v2f src n) = c :=
      npAverage_const c _ hgather.1 hgather.2
    have hstep : plainPass faces v2f (n :: vc) src dst =
        plainPass faces v2f vc src
          (dst.set n (npAverage (gatherFaceVals faces v2f src n))) := rfl
    rw [hstep, havg]
    have hsetc : ∀ x ∈ dst.set n c, x = c := by
      intro x hx
      rcases List.mem_or_eq_of_mem_set hx with h | h
      · exact hdst x h
      · exact h
    obtain ⟨h1, h2⟩ := ih src (dst.set n c) hfaces
      (fun m hm => hne m (List.mem_cons_of_mem _ hm)) hsrc hsetc
    exact ⟨h1, by rw [h2, List.length_set]⟩

theorem smoothPasses_const {α : Type} [AddCommMonoid α] [Module ℚ α] (c : α)
    (faces v2f : List (List ℕ)) (N : ℕ)
    (hfaces : ∀ f ∈ faces, ∀ m ∈ f, m < N)
    (hfne : ∀ f ∈ faces, f ≠ [])
    (hv2fT : ∀ n t, t ∈ v2f.getD n [] → t < faces.length)
    (vc : List ℕ) (hne : ∀ n ∈ vc, v2f.getD n [] ≠ []) :
    ∀ (k : ℕ) (xs : List α), xs.length = N → (∀ x ∈ xs, x = c) →
      (∀ x ∈ smoothPasses faces v2f vc k xs, x = c) ∧
        (smoothPasses faces v2f vc k xs).length = N := by
  intro k
  induction k with
  | zero =>
    intro xs hlen hxs
    exact ⟨hxs, hlen⟩
  | succ k ih =>
    intro xs hlen hxs
    have hpass := plainPass_const c faces v2f hfne hv2fT vc xs xs
      (by rw [hlen]; exact hfaces) hne hxs hxs
    have : smoothPasses faces v2f vc (k + 1) xs =
        smoothPasses faces v2f vc k (plainPass faces v2f vc xs xs) := rfl
    rw [this]
    exact ih _ (by rw [hpass.2, hlen]) hpass.1

theorem except_bind_ok {α β : Type} (a : α) (f : α → Except String β) :
    (Except.ok a : Except String α).bind f = f a := rfl

theorem dilateCore_props (faces v2f : List (List ℕ)) (N : ℕ)
    (hfaces : ∀ f ∈ faces, ∀ m ∈ f, m < N)
    (hv2fT : ∀ n t, t ∈ v2f.getD n [] → t < faces.length)
    (hcoh : ∀ f ∈ faces, ∀ m ∈ f, v2f.getD m [] ≠ [])
    (vc : List ℕ) :
    ∀ n ∈ dilateCore faces v2f vc, n < N ∧ v2f.getD n [] ≠ [] := by
  intro n hn
  rw [dilateCore, List.mem_dedup, List.mem_insertionSort] at hn
  obtain ⟨t, ht, hnf⟩ := List.mem_flatMap.mp hn
  obtain ⟨n0, _, htn0⟩ := List.mem_flatMap.mp ht
  have htlt := hv2fT n0 t htn0
  have hface : faces.getD t [] ∈ faces := by
    rw [List.getD_eq_getElem _ _ htlt]
    exact List.getElem_mem htlt
  exact ⟨hfaces _ hface n hnf, hcoh _ hface n hnf⟩

theorem dilateVerts_ok (faces v2f : List (List ℕ)) (N : ℕ)
    (hfaces : ∀ f ∈ faces, ∀ m ∈ f, m < N)
    (hfne : ∀ f ∈ faces, f ≠ [])
    (hv2fT : ∀ n t, t ∈ v2f.getD n [] → t < faces.length)
    (hcoh : ∀ f ∈ faces, ∀ m ∈ f, v2f.getD m [] ≠ [])
    (vc : List ℕ) (hne : vc ≠ [])
    (hP : ∀ n ∈ vc, n < N ∧ v2f.getD n [] ≠ []) :
    dilateVerts faces v2f vc = Except.ok (dilateCore faces v2f vc) ∧
      dilateCore faces v2f vc ≠ [] ∧
      ∀ n ∈ dilateCore faces v2f vc, n < N ∧ v2f.getD n [] ≠ [] := by
  refine ⟨by rw [dilateVerts, if_neg hne], ?_,
    dilateCore_props faces v2f N hfaces hv2fT hcoh vc⟩
  obtain ⟨n0, hn0⟩ := List.exists_mem_of_ne_nil _ hne
  obtain ⟨t0, ht0⟩ := List.exists_mem_of_ne_nil _ (hP n0 hn0).2
  have ht0lt := hv2fT n0 t0 ht0
  have hface : faces.getD t0 [] ∈ faces := by
    rw [List.getD_eq_getElem _ _ ht0lt]
    exact List.getElem_mem ht0lt
  obtain ⟨m0, hm0⟩ := List.exists_mem_of_ne_nil _ (hfne _ hface)
  have hmem : m0 ∈ dilateCore faces v2f vc := by
    rw [dilateCore, List.mem_dedup, List.mem_insertionSort]
    exact List.mem_flatMap.mpr ⟨t0, List.mem_flatMap.mpr ⟨n0, hn0, ht0⟩, hm0⟩
  exact List.ne_nil_of_mem hmem

theorem dilateIter_ok (faces v2f : List (List ℕ)) (N : ℕ)
    (hfaces : ∀ f ∈ faces, ∀ m ∈ f, m < N)
    (hfne : ∀ f ∈ faces, f ≠ [])
    (hv2fT : ∀ n t, t ∈ v2f.getD n [] → t < faces.length)
    (hcoh : ∀ f ∈ faces, ∀ m ∈ f, v2f.getD m [] ≠ []) :
    ∀ (k : ℕ) (vc : List ℕ), (k ≠ 0 → vc ≠ []) →
      (∀ n ∈ vc, n < N ∧ v2f.getD n [] ≠ []) →
      ∃ out, dilateIter faces v2f k vc = Except.ok out ∧
        ∀ n ∈ out, n < N ∧ v2f.getD n [] ≠ [] := by
  intro k
  induction k with
  | zero =>
    intro vc _ hP
    exact ⟨vc, rfl, hP⟩
  | succ k ih =>
    intro vc hne hP
    obtain ⟨heq1, hne1, hP1⟩ := dilateVerts_ok faces v2f N hfaces hfne hv2fT
      hcoh vc (hne (Nat.succ_ne_zero k)) hP
    obtain ⟨out, heq, hPo⟩ := ih (dilateCore faces v2f vc) (fun _ => hne1) hP1
    refine ⟨out, ?_, hPo⟩
    show (dilateVerts faces v2f vc).bind (dilateIter faces v2f k) =
      Except.ok out
    rw [heq1, except_bind_ok]
    exact heq

/-- C9 (amended).  A constant per-vertex field is a fixed point of the
plain (`taubin=False`) `smooth_vertices` smoother, for any iteration count,
dilation count, considered subset and movement mask, provided: every face
is nonempty with in-range vertex indices; every vertex of the (in-range)
considered subset has at least one incident face, and so does every vertex
occurring in a face (as holds for the vertex-to-face map built from the
faces); the subset is nonempty when a dilation round is requested (an
empty subset raises an IndexError in the source); and the movement mask,
when given, covers all vertices (a short mask raises an IndexError).  The
call then returns the field unchanged without raising.  Without the
incident-face proviso on the subset the claim fails: a subset vertex with
no incident face is averaged over an empty selection (see the
counterexample). -/
theorem C9_uniform_field_fixed_point {α : Type} [AddCommMonoid α]
    [Module ℚ α] (c : α) (vertices : List α) (faces : List (List ℕ))
    (verts2consider : Option (List ℕ)) (v2f_map : Option (List (List ℕ)))
    (Niterations Ndilate : ℕ) (mask_move : Option (List Bool))
    (hc : ∀ x ∈ vertices, x = c)
    (hfaces : ∀ f ∈ faces, ∀ m ∈ f, m < vertices.length)
    (hfne : ∀ f ∈ faces, f ≠ [])
    (hv2fT : ∀ n t,
      t ∈ (v2f_map.getD (verts2faces vertices.length faces)).getD n [] →
        t < faces.length)
    (hcoh : ∀ f ∈ faces, ∀ m ∈ f,
      (v2f_map.getD (verts2faces vertices.length faces)).getD m [] ≠ [])
    (hvc : ∀ n ∈ verts2consider.getD (List.range vertices.length),
      n < vertices.length)
    (hvcne : ∀ n ∈ verts2consider.getD (List.range vertices.length),
      (v2f_map.getD (verts2faces vertices.length faces)).getD n [] ≠ [])
    (hdil : Ndilate ≠ 0 →
      verts2consider.getD (List.range vertices.length) ≠ [])
    (hmask : ∀ m, mask_move = some m → vertices.length ≤ m.length) :
    smooth_vertices vertices faces verts2consider v2f_map Niterations Ndilate
      mask_move = Except.ok vertices := by
  obtain ⟨vc1, heq1, hP1⟩ := dilateIter_ok faces
    (v2f_map.getD (verts2faces vertices.length faces)) vertices.length hfaces
    hfne hv2fT hcoh Ndilate (verts2consider.getD (List.range vertices.length))
    hdil (fun n hn => ⟨hvc n hn, hvcne n hn⟩)
  have main : ∀ (vc : List ℕ),
      (∀ n ∈ vc,
        (v2f_map.getD (verts2faces vertices.length faces)).getD n [] ≠ []) →
      smoothPasses faces (v2f_map.getD (verts2faces vertices.length faces))
        vc (1 + (Niterations - 1)) vertices = vertices := by
    intro vc hne
    obtain ⟨hall, hlen⟩ := smoothPasses_const c faces
      (v2f_map.getD (verts2faces vertices.length faces)) vertices.length
      hfaces hfne hv2fT vc hne (1 + (Niterations - 1)) vertices rfl hc
    have h1 := List.eq_replicate_length.mpr hall
    rw [h1, hlen]
    exact (List.eq_replicate_length.mpr hc).symm
  rw [smooth_vertices, heq1, except_bind_ok]
  rcases mask_move with _ | m
  · show (Except.ok vc1).bind (fun vc2 =>
      Except.ok (smoothPasses faces
        (v2f_map.getD (verts2faces vertices.length faces)) vc2
        (1 + (Niterations - 1)) vertices)) = Except.ok vertices
    rw [except_bind_ok, main vc1 (fun n hn => (hP1 n hn).2)]
  · show (maskConsider m vc1).bind (fun vc2 =>
      Except.ok (smoothPasses faces
        (v2f_map.getD (verts2faces vertices.length faces)) vc2
        (1 + (Niterations - 1)) vertices)) = Except.ok vertices
    have hall : vc1.all (fun n => decide (n < m.length)) = true := by
      rw [List.all_eq_true]
      intro n hn
      exact decide_eq_true (lt_of_lt_of_le (hP1 n hn).1 (hmask m rfl))
    rw [maskConsider, if_pos hall, except_bind_ok,
      main _ (fun n hn => (hP1 n (List.mem_of_mem_filter hn)).2)]

/-- Witness for the amended C9: two plain smoothing iterations with one
dilation round on a single-triangle mesh return the constant field
`[2, 2, 2]` unchanged (and without raising). -/
theorem C9_uniform_field_fixed_point_witness :
    smooth_vertices ([2, 2, 2] : List ℚ) [[0, 1, 2]] none none 2 1 none
      = Except.ok [2, 2, 2] := by
  have hv : (none : Option (List (List ℕ))).getD
      (verts2faces ([2, 2, 2] : List ℚ).length [[0, 1, 2]])
        = [[0], [0], [0]] := rfl
  refine C9_uniform_field_fixed_point 2 [2, 2, 2] [[0, 1, 2]] none none 2 1
    none ?_ ?_ ?_ ?_ ?_ ?_ ?_ ?_ ?_
  · intro x hx
    rcases hx with _ | ⟨_, hx⟩
    · rfl
    · rcases hx with _ | ⟨_, hx⟩
      · rfl
      · rcases hx with _ | ⟨_, hx⟩
        · rfl
        · cases hx
  · intro f hf m hm
    rcases hf with _ | ⟨_, hf⟩
    · rcases hm with _ | ⟨_, hm⟩
      · decide
      · rcases hm with _ | ⟨_, hm⟩
        · decide
        · rcases hm with _ | ⟨_, hm⟩
          · decide
          · cases hm
    · cases hf
  · intro f hf
    rcases hf with _ | ⟨_, hf⟩
    · decide
    · cases hf
  · intro n t ht
    rw [hv] at ht
    rcases n with _ | n
    · rcases ht with _ | ⟨_, ht⟩
      · decide
      · cases ht
    · rcases n with _ | n
      · rcases ht with _ | ⟨_, ht⟩
        · decide
        · cases ht
      · rcases n with _ | n
        · rcases ht with _ | ⟨_, ht⟩
          · decide
          · cases ht
        · cases ht
  · intro f hf m hm
    rw [hv]
    rcases hf with _ | ⟨_, hf⟩
    · rcases hm with _ | ⟨_, hm⟩
      · decide
      · rcases hm with _ | ⟨_, hm⟩
        · decide
        · rcases hm with _ | ⟨_, hm⟩
          · decide
          · cases hm
    · cases hf
  · intro n hn
    exact List.mem_range.mp hn
  · intro n hn
    rw [hv]
    have h3 := List.mem_range.mp hn
    rcases n with _ | n
    · decide
    · rcases n with _ | n
      · decide
      · rcases n with _ | n
        · decide
        · exfalso
          simp only [List.length_cons, List.length_nil] at h3
          omega
  · intro _
    decide
  · intro m hm
    exact Option.noConfusion hm

/-- Counterexample to C9 as stated: on a mesh whose vertex 0 belongs to no
face, smoothing the constant field `[1, 1, 1, 1]` over the subset `[0]`
changes it (numpy averages the empty selection of vertex 0 to NaN; this
model yields 0; either value differs from 1), so a uniform field is not a
fixed point on every mesh and subset. -/
theorem C9_counterexample :
    (∀ x ∈ ([1, 1, 1, 1] : List ℚ), x = 1) ∧
    smooth_vertices ([1, 1, 1, 1] : List ℚ) [[1, 2, 3]] (some [0]) none 1 0
      none ≠ Except.ok [1, 1, 1, 1] := by
  constructor
  · intro x hx
    rcases hx with _ | ⟨_, hx⟩
    · rfl
    · rcases hx with _ | ⟨_, hx⟩
      · rfl
      · rcases hx with _ | ⟨_, hx⟩
        · rfl
        · rcases hx with _ | ⟨_, hx⟩
          · rfl
          · cases hx
  · have hg : gatherFaceVals [[1, 2, 3]]
        (verts2faces ([1, 1, 1, 1] : List ℚ).length [[1, 2, 3]])
        ([1, 1, 1, 1] : List ℚ) 0 = [] := rfl
    have hres : smooth_vertices ([1, 1, 1, 1] : List ℚ) [[1, 2, 3]]
        (some [0]) none 1 0 none =
        Except.ok (List.set ([1, 1, 1, 1] : List ℚ) 0
          (npAverage (gatherFaceVals [[1, 2, 3]]
            (verts2faces ([1, 1, 1, 1] : List ℚ).length [[1, 2, 3]])
            ([1, 1, 1, 1] : List ℚ) 0))) := rfl
    rw [hg] at hres
    have havg : npAverage ([] : List ℚ) = 0 := by
      rw [npAverage]
      norm_num
    rw [havg] at hres
    have hset : List.set ([1, 1, 1, 1] : List ℚ) 0 0 = [0, 1, 1, 1] := rfl
    rw [hset] at hres
    rw [hres]
    intro h
    injection h with h2
    injection h2 with h1 _
    exact absurd h1 (by norm_num)

/-! ## Volume rasterization (`brain_surface.py`, lines 491-605) -/

/-- Oracle for the external 1-indexed segment-triangle intersection kernel
(`Msh.intersect_segment` of the mesh library): given mesh vertices and
faces and parallel lists of segment start and end points, it returns
records of ((segment index, 1-indexed face id), intersection position). -/
structure SegTriKernel where
  run : List Vec3 → List (List ℕ) → List Vec3 → List Vec3 → List ((ℕ × ℕ) × Vec3)

/-- `segment_triangle_intersect` (lines 460-488 of `brain_surface.py`):
wraps the kernel call and converts the face ids from the 1-indexed kernel
convention to the 0-indexed convention of this module. -/
def segment_triangle_intersect (K : SegTriKernel) (vertices : List Vec3)
    (faces : List (List ℕ)) (segment_start segment_end : List Vec3) :
    List ((ℕ × ℕ) × Vec3) :=
  (K.run vertices faces segment_start segment_end).map
    (fun pr => ((pr.1.1, pr.1.2 - 1), pr.2))

/-- Column permutation of lines 498-505 of `brain_surface.py`: the cast
direction becomes the third (depth) coordinate ([0,2,1] for axis y,
[2,1,0] for axis x, identity for axis z). -/
def permuteAxis (axis : String) (v : Vec3) : Vec3 :=
  if axis = "y" then (v.1, v.2.2, v.2.1)
  else if axis = "x" then (v.2.2, v.2.1, v.1)
  else v

/-- The same permutation applied to the output shape. -/
def permuteShape (axis : String) (s : ℕ × ℕ × ℕ) : ℕ × ℕ × ℕ :=
  if axis = "y" then (s.1, s.2.2, s.2.1)
  else if axis = "x" then (s.2.2, s.2.1, s.1)
  else s

/-- Minimum of a list of rationals (`np.min`; the empty default 0 is never
reached from `mask_from_surface`, which short-circuits empty input). -/
def listMin : List ℚ → ℚ
  | [] => 0
  | h :: t => t.foldl min h

/-- Maximum of a list of rationals (`np.max`). -/
def listMax : List ℚ → ℚ
  | [] => 0
  | h :: t => t.foldl max h

/-- Lines 543-545 of `brain_surface.py`: the recorded crossing depth of one
intersection, `(z + 1).astype(np.int)` (truncation toward zero) clamped to
`[0, out_shape[2]]`. -/
def interZ (out2 : ℕ) (z : ℚ) : ℕ :=
  let t : ℚ := z + 1
  let i : ℤ := if 0 ≤ t then Int.floor t else Int.ceil t
  if i < 0 then 0 else min i.toNat out2

/-- `_rasterize_surface` (lines 491-569 of `brain_surface.py`): transform
the vertices by the inverse affine (modelled by the oracle map
`invAffine`), permute so the cast axis is the depth axis, cast one segment
per grid cell from below the mesh to above it, record the clamped crossing
depths per ray, mark the depths between sorted crossing pairs via `rayMask`,
and permute the mask back.  An axis string other than x, y, z raises
(ValueError). -/
def _rasterize_surface (K : SegTriKernel) (invAffine : Vec3 → Vec3)
    (vertices : List Vec3) (faces : List (List ℕ)) (shape : ℕ × ℕ × ℕ)
    (axis : String) : Except String ((ℕ × ℕ × ℕ) → Bool) :=
  if axis = "x" ∨ axis = "y" ∨ axis = "z" then
    let vertices_trafo := (vertices.map invAffine).map (permuteAxis axis)
    let out_shape := permuteShape axis shape
    let zs := vertices_trafo.map (fun v => v.2.2)
    let znear : ℚ := if listMin zs < 0 then (11/10) * listMin zs else 0
    let zfar : ℚ :=
      if listMax zs > (out_shape.2.2 : ℚ) then (11/10) * listMax zs
      else (out_shape.2.2 : ℚ)
    let nlines := out_shape.1 * out_shape.2.1
    let starts := (List.range nlines).map
      (fun l => (((l / out_shape.2.1 : ℕ) : ℚ),
        (((l % out_shape.2.1 : ℕ) : ℚ), znear)))
    let stops := (List.range nlines).map
      (fun l => (((l / out_shape.2.1 : ℕ) : ℚ),
        (((l % out_shape.2.1 : ℕ) : ℚ), zfar)))
    let pairsPos := segment_triangle_intersect K vertices_trafo faces starts stops
    let crossingsAt : ℕ → List ℕ := fun l =>
      (pairsPos.filter (fun pr => pr.1.1 == l)).map
        (fun pr => interZ out_shape.2.2 pr.2.2.2)
    let maskP : (ℕ × ℕ × ℕ) → Bool := fun p =>
      decide (p.1 < out_shape.1) && decide (p.2.1 < out_shape.2.1) &&
        rayMask (crossingsAt (p.1 * out_shape.2.1 + p.2.1)) p.2.2
    Except.ok (fun p =>
      if axis = "y" then maskP (p.1, p.2.2, p.2.1)
      else if axis = "x" then maskP (p.2.2, p.2.1, p.1)
      else maskP p)
  else
    Except.error "axis should be x, y, or z"

/-- Extraction of the always-successful literal-axis rasterization calls of
`mask_from_surface` (axis is one of the literals x, y, z there, so the
error branch is unreachable). -/
def exceptMask (e : Except String ((ℕ × ℕ × ℕ) → Bool)) : (ℕ × ℕ × ℕ) → Bool :=
  match e with
  | Except.ok m => m
  | Except.error _ => fun _ => false

/-- `mask_from_surface` (lines 572-605 of `brain_surface.py`): empty input
(no vertices or no faces) short-circuits, after a logged warning, to the
all-false mask of the requested shape; otherwise the surface is rasterized
along the three axes and a voxel is inside when at least 2 of the 3
axis-wise masks contain it. -/
def mask_from_surface (K : SegTriKernel) (invAffine : Vec3 → Vec3)
    (vertices : List Vec3) (faces : List (List ℕ)) (shape : ℕ × ℕ × ℕ) :
    (ℕ × ℕ × ℕ) × ((ℕ × ℕ × ℕ) → Bool) :=
  if vertices.length = 0 ∨ faces.length = 0 then
    (shape, fun _ => false)
  else
    let mx := exceptMask (_rasterize_surface K invAffine vertices faces shape "x")
    let my := exceptMask (_rasterize_surface K invAffine vertices faces shape "y")
    let mz := exceptMask (_rasterize_surface K invAffine vertices faces shape "z")
    (shape, fun p =>
      decide (2 ≤ (cond (mx p) 1 0) + (cond (my p) 1 0) + (cond (mz p) 1 0 : ℕ)))

/-- C6.  For every affine, requested shape and intersection kernel, an
empty vertex list or an empty face list makes `mask_from_surface` return
the all-false mask of the requested shape; the result does not depend on
the kernel or the affine, so no rasterization contributes to it (the
source logs a warning and returns; it does not raise). -/
theorem C6_empty_surface_false_mask (K : SegTriKernel) (invAffine : Vec3 → Vec3)
    (vertices : List Vec3) (faces : List (List ℕ)) (shape : ℕ × ℕ × ℕ)
    (h : vertices = [] ∨ faces = []) :
    mask_from_surface K invAffine vertices faces shape =
      (shape, fun _ => false) := by
  unfold mask_from_surface
  rcases h with h | h
  · rw [if_pos (Or.inl (by rw [h]; rfl))]
  · rw [if_pos (Or.inr (by rw [h]; rfl))]

/-- A trivial intersection kernel, used to instantiate C6 concretely. -/
def trivialKernel : SegTriKernel := ⟨fun _ _ _ _ => []⟩

/-- Witness for C6: empty vertex list, a nonempty face list, an arbitrary
shape and the trivial kernel produce the all-false mask of that shape. -/
theorem C6_empty_surface_false_mask_witness :
    mask_from_surface trivialKernel (fun v => v) [] [[0, 1, 2]] (3, 4, 5) =
      ((3, 4, 5), fun _ => false) := by
  exact C6_empty_surface_false_mask trivialKernel (fun v => v) [] [[0, 1, 2]]
    (3, 4, 5) (Or.inl rfl)

/-! ## `expandCS` (`brain_surface.py`, lines 26-240) -/

/-- The external kernels consumed by `expandCS`: the segment-triangle
intersection kernel, the node-normal computation and the Taubin
(volume-preserving) smoothing pass of the mesh library, and the square
root (irrational over the rationals, so modelled as an oracle map). -/
structure ExpandOracles where
  kernel : SegTriKernel
  nodesNormals : List Vec3 → List (List ℕ) → List Vec3
  taubinSmooth : List Vec3 → List (List ℕ) → List Bool → List Vec3
  sqrtQ : ℚ → ℚ

/-- The mutable buffers live during one `expandCS` call, one field per
array variable of the source.  `vertices_org`, `faces` and `mm2move_total`
are the caller-supplied input buffers; `vertices` is the defensive copy
made at line 89 and `move` the movement mask created at line 90.  Every
in-place numpy mutation of the source targets `vertices`, `move` or a
freshly allocated per-iteration array, never an input buffer; accordingly
only the `vertices` and `move` fields are ever replaced below. -/
structure ExpandState where
  vertices_org : List Vec3
  faces : List (List ℕ)
  mm2move_total : List ℚ
  vertices : List Vec3
  move : List Bool

/-- Boolean-mask selection `xs[mask]` (row compaction). -/
def maskSelect {α : Type} (xs : List α) (mask : List Bool) : List α :=
  (xs.zip mask).filterMap (fun p => if p.2 then some p.1 else none)

/-- One entry of `np.bincount(pairs[:, 0], minlength)[k]`: the number of
intersection records of segment `k`. -/
def countFst (pairs : List ((ℕ × ℕ) × Vec3)) (k : ℕ) : ℕ :=
  (pairs.filter (fun pr => pr.1.1 == k)).length

/-- `vertices[faces]`: the triangle corner positions of every face. -/
def meshOf (vertices : List Vec3) (faces : List (List ℕ)) :
    List (Vec3 × Vec3 × Vec3) :=
  faces.map (fun f =>
    (vertices.getD (f.getD 0 0) v3zero,
      (vertices.getD (f.getD 1 0) v3zero, vertices.getD (f.getD 2 0) v3zero)))

/-- `get_triangle_normals` (lines 440-457 of `brain_surface.py`): the cross
product of the two edge vectors of each triangle, divided by its norm (a
zero-area triangle divides by zero; not special-cased, as in the source). -/
def get_triangle_normals (sqrtQ : ℚ → ℚ) (mesh : List (Vec3 × Vec3 × Vec3)) :
    List Vec3 :=
  mesh.map (fun tri =>
    let n := cross3 (sub3 tri.2.1 tri.1) (sub3 tri.2.2 tri.1)
    smul3 (sqrtQ (dot3 n n))⁻¹ n)

/-- Lines 93-97 of `brain_surface.py`: the average length of the three edge
vectors of all faces. -/
def avgEdgeLen (sqrtQ : ℚ → ℚ) (vertices : List Vec3)
    (faces : List (List ℕ)) : ℚ :=
  let e1 := faces.map (fun f =>
    sub3 (vertices.getD (f.getD 0 0) v3zero) (vertices.getD (f.getD 1 0) v3zero))
  let e2 := faces.map (fun f =>
    sub3 (vertices.getD (f.getD 0 0) v3zero) (vertices.getD (f.getD 2 0) v3zero))
  let e3 := faces.map (fun f =>
    sub3 (vertices.getD (f.getD 1 0) v3zero) (vertices.getD (f.getD 2 0) v3zero))
  npAverage ((e1 ++ e2 ++ e3).map (fun e => sqrtQ (dot3 e e)))

/-- `vertices + node_normals * mm2move[:, None]` (line 191). -/
def shiftVertices (vertices normals : List Vec3) (mm : List ℚ) : List Vec3 :=
  (List.range vertices.length).map (fun j =>
    add3 (vertices.getD j v3zero) (smul3 (mm.getD j 0) (normals.getD j v3zero)))

/-- `vc_tst[move] += node_normals[move] * mm2move[move, None]`
(lines 149-150): shift only the movable vertices. -/
def shiftMovable (vertices normals : List Vec3) (mm : List ℚ)
    (move : List Bool) : List Vec3 :=
  (List.range vertices.length).map (fun j =>
    if move.getD j false then
      add3 (vertices.getD j v3zero) (smul3 (mm.getD j 0) (normals.getD j v3zero))
    else vertices.getD j v3zero)

/-- Ray starts (lines 143 and 156): each movable vertex offset by
`1e-4 * avg_edge_len` along its normal. -/
def segStarts (verticesSel normalsSel : List Vec3) (eps : ℚ) : List Vec3 :=
  (List.range verticesSel.length).map (fun k =>
    add3 (verticesSel.getD k v3zero) (smul3 eps (normalsSel.getD k v3zero)))

/-- Ray ends (lines 144 and 157): each movable vertex advanced by its
intended displacement plus `ensure_distance` along its normal. -/
def segEnds (verticesSel normalsSel : List Vec3) (mmSel : List ℚ)
    (ensure_distance : ℚ) : List Vec3 :=
  (List.range verticesSel.length).map (fun k =>
    add3 (verticesSel.getD k v3zero)
      (smul3 (mmSel.getD k 0 + ensure_distance) (normalsSel.getD k v3zero)))

/-- `np.unique(faces[flipped_faces])` (line 201): the sorted duplicate-free
vertex indices of all flipped faces. -/
def flippedVerts (faces : List (List ℕ)) (flipped : List Bool) : List ℕ :=
  ((((List.range faces.length).filter (fun t => flipped.getD t false)).flatMap
    (fun t => faces.getD t [])).insertionSort (fun a b => a ≤ b)).dedup

/-- Extraction of an internal smoothing result inside `expandCS`.  The
`expandCS` embedding does not model exception propagation from numpy
indexing (consistently so: for example an out-of-range face index would
already raise at line 93 of the source, before the loop); an erroring
smoothing call therefore keeps the pre-smoothing buffer here.  The
displacement-smoothing call (no dilation rounds, no mask) never errors;
the flipped-face call is guarded by a nonempty flipped set. -/
def exceptListD {α : Type} (e : Except String (List α)) (dflt : List α) :
    List α :=
  match e with
  | Except.ok l => l
  | Except.error _ => dflt

/-- One iteration of the `expandCS` loop (lines 98-238 of
`brain_surface.py`), at loop index `i`: recompute the (sign-adjusted) node
normals, the per-iteration displacement, run the two self-intersection ray
tests (against the current mesh and against the temporarily shifted and
Taubin-smoothed mesh), update the movement mask, optionally despike it,
zero and optionally smooth the displacement, move the vertices, optionally
fix flipped faces by local plain smoothing, and optionally Taubin-smooth
the movable vertices (skipped on the last iteration when
`skip_lastsmooth`).  The debug branches of the source only write diagnostic
meshes and are omitted.  Only the `vertices` and `move` buffers are
replaced. -/
def expandCS_body (O : ExpandOracles) (ensure_distance : ℚ) (nsteps : ℤ)
    (deform : String)
    (smooth_mesh skip_lastsmooth smooth_mm2move despike_nonmove
      fix_faceflips : Bool)
    (v2f : List (List ℕ)) (avg_edge_len : ℚ) (i : ℕ) (s : ExpandState) :
    ExpandState :=
  let node_normals0 := O.nodesNormals s.vertices s.faces
  let node_normals :=
    if deform = "shrink" then node_normals0.map (fun n => smul3 (-1) n)
    else node_normals0
  let mm2move := computeMm2move i nsteps s.mm2move_total s.vertices
    s.vertices_org node_normals s.move
  let facenormals_pre := get_triangle_normals O.sqrtQ (meshOf s.vertices s.faces)
  let vSel := maskSelect s.vertices s.move
  let nSel := maskSelect node_normals s.move
  let mmSel := maskSelect mm2move s.move
  let starts := segStarts vSel nSel ((1 / 10000) * avg_edge_len)
  let stops := segEnds vSel nSel mmSel ensure_distance
  let pairs1 := segment_triangle_intersect O.kernel s.vertices s.faces starts stops
  let vc_tst0 := shiftMovable s.vertices node_normals mm2move s.move
  let vc_tst := O.taubinSmooth vc_tst0 s.faces s.move
  let pairs2 := segment_triangle_intersect O.kernel vc_tst s.faces starts stops
  let move1 := applyMoveUpdate s.move
    (fun k => decide (countFst pairs1 k = 0) && decide (countFst pairs2 k < 2))
  let move2 := if despike_nonmove then despike s.faces v2f move1 else move1
  let mm2move2 := zeroNonMove move2 mm2move
  let mm2move3 :=
    if smooth_mm2move then
      zeroNonMove move2
        (exceptListD (smooth_vertices mm2move2 s.faces none none 1 0 none)
          mm2move2)
    else mm2move2
  let vertices1 := shiftVertices s.vertices node_normals mm2move3
  let facenormals_post := get_triangle_normals O.sqrtQ (meshOf vertices1 s.faces)
  let flipped := (List.range s.faces.length).map (fun t =>
    decide (dot3 (facenormals_post.getD t v3zero)
      (facenormals_pre.getD t v3zero) < 0))
  let vertices2 :=
    if fix_faceflips && flipped.any id then
      exceptListD
        (smooth_vertices vertices1 s.faces
          (some (flippedVerts s.faces flipped)) (some v2f) 5 2 none)
        vertices1
    else vertices1
  let vertices3 :=
    if smooth_mesh && !(skip_lastsmooth && decide ((i : ℤ) = nsteps - 1)) then
      O.taubinSmooth vertices2 s.faces move2
    else vertices2
  { s with vertices := vertices3, move := move2 }

/-- The iteration loop `for i in range(nsteps)`, with `i` the current index
and `k` the number of remaining iterations. -/
def expandCS_loop (O : ExpandOracles) (ensure_distance : ℚ) (nsteps : ℤ)
    (deform : String)
    (smooth_mesh skip_lastsmooth smooth_mm2move despike_nonmove
      fix_faceflips : Bool)
    (v2f : List (List ℕ)) (avg_edge_len : ℚ) :
    ℕ → ℕ → ExpandState → ExpandState
  | _, 0, s => s
  | i, k + 1, s =>
    expandCS_loop O ensure_distance nsteps deform smooth_mesh skip_lastsmooth
      smooth_mm2move despike_nonmove fix_faceflips v2f avg_edge_len
      (i + 1) k
      (expandCS_body O ensure_distance nsteps deform smooth_mesh
        skip_lastsmooth smooth_mm2move despike_nonmove fix_faceflips v2f
        avg_edge_len i s)

/-- `expandCS` (lines 26-240 of `brain_surface.py`).  The three input
assertions (valid `deform` mode, integer `nsteps`, matching lengths of
`mm2move_total` and `vertices_org`) run before the defensive copy of the
vertices and before any other computation; the integer check is carried by
the type of `nsteps` here.  On success the final vertex buffer is
returned; the input buffers are threaded through the state unchanged. -/
def expandCS (O : ExpandOracles) (vertices_org : List Vec3)
    (faces : List (List ℕ)) (mm2move_total : List ℚ) (ensure_distance : ℚ)
    (nsteps : ℤ) (deform : String)
    (smooth_mesh skip_lastsmooth smooth_mm2move despike_nonmove
      fix_faceflips : Bool) : Except String (List Vec3) :=
  if ¬(deform = "expand" ∨ deform = "shrink") then
    Except.error "AssertionError: deform"
  else if ¬(mm2move_total.length = vertices_org.length) then
    Except.error "The length of mm2move must match that of vertices"
  else
    Except.ok (expandCS_loop O ensure_distance nsteps deform smooth_mesh
      skip_lastsmooth smooth_mm2move despike_nonmove fix_faceflips
      (verts2faces vertices_org.length faces)
      (avgEdgeLen O.sqrtQ vertices_org faces) 0 nsteps.toNat
      { vertices_org := vertices_org, faces := faces,
        mm2move_total := mm2move_total, vertices := vertices_org,
        move := List.replicate vertices_org.length true }).vertices

theorem expandCS_body_frame (O : ExpandOracles) (ed : ℚ) (ns : ℤ)
    (deform : String) (b1 b2 b3 b4 b5 : Bool) (v2f : List (List ℕ)) (ael : ℚ)
    (i : ℕ) (s : ExpandState) :
    (expandCS_body O ed ns deform b1 b2 b3 b4 b5 v2f ael i s).vertices_org
        = s.vertices_org ∧
    (expandCS_body O ed ns deform b1 b2 b3 b4 b5 v2f ael i s).faces
        = s.faces ∧
    (expandCS_body O ed ns deform b1 b2 b3 b4 b5 v2f ael i s).mm2move_total
        = s.mm2move_total :=
  ⟨rfl, rfl, rfl⟩

/-- C8.  Frame and fail-fast behavior of `expandCS`: the precondition
checks (valid deform mode, matching array lengths; the integer step count
is enforced by the type of `nsteps`) are decided before the defensive copy
and the loop, and the call succeeds exactly when they hold; and across any
number of loop iterations the input buffers `vertices_org`, `faces` and
`mm2move_total` of the state are unchanged — every write of the loop body
targets the `vertices` copy, the `move` mask or a fresh per-iteration
array. -/
theorem C8_frame_and_fail_fast (O : ExpandOracles) (vertices_org : List Vec3)
    (faces : List (List ℕ)) (mm2move_total : List ℚ) (ed : ℚ) (ns : ℤ)
    (deform : String) (b1 b2 b3 b4 b5 : Bool) :
    ((expandCS O vertices_org faces mm2move_total ed ns deform
        b1 b2 b3 b4 b5).isOk = true ↔
      ((deform = "expand" ∨ deform = "shrink") ∧
        mm2move_total.length = vertices_org.length)) ∧
    (∀ (v2f : List (List ℕ)) (ael : ℚ) (i k : ℕ) (s : ExpandState),
      (expandCS_loop O ed ns deform b1 b2 b3 b4 b5 v2f ael i k s).vertices_org
          = s.vertices_org ∧
      (expandCS_loop O ed ns deform b1 b2 b3 b4 b5 v2f ael i k s).faces
          = s.faces ∧
      (expandCS_loop O ed ns deform b1 b2 b3 b4 b5 v2f ael i k s).mm2move_total
          = s.mm2move_total) := by
  constructor
  · unfold expandCS
    by_cases hd : deform = "expand" ∨ deform = "shrink"
    · rw [if_neg (not_not_intro hd)]
      by_cases hl : mm2move_total.length = vertices_org.length
      · rw [if_neg (not_not_intro hl)]
        simp [Except.isOk, Except.toBool, hd, hl]
      · rw [if_pos hl]
        simp [Except.isOk, Except.toBool, hl]
    · rw [if_pos hd]
      simp [Except.isOk, Except.toBool, hd]
  · intro v2f ael i k
    induction k generalizing i with
    | zero => intro s; exact ⟨rfl, rfl, rfl⟩
    | succ k ih =>
      intro s
      have hstep : expandCS_loop O ed ns deform b1 b2 b3 b4 b5 v2f ael i
          (k + 1) s =
          expandCS_loop O ed ns deform b1 b2 b3 b4 b5 v2f ael (i + 1) k
            (expandCS_body O ed ns deform b1 b2 b3 b4 b5 v2f ael i s) := rfl
      rw [hstep]
      obtain ⟨h1, h2, h3⟩ := ih (i + 1)
        (expandCS_body O ed ns deform b1 b2 b3 b4 b5 v2f ael i s)
      obtain ⟨g1, g2, g3⟩ := expandCS_body_frame O ed ns deform b1 b2 b3 b4 b5
        v2f ael i s
      exact ⟨h1.trans g1, h2.trans g2, h3.trans g3⟩
